import Mathlib

/-!
Shallow embedding of `src/spess/ratelimit.py`.

Python floats are modelled as exact rationals (`ℚ`).  The `timer`
callback of each limiter is modelled by passing the current time `now`
explicitly to every operation; the Python methods read `self._timer()`
exactly once per call, so this is faithful.  A method that mutates
`self` becomes a function returning the new state; `wait_time`
(a read-only property) returns an `Option ℚ` (`None` ↦ `none`).
-/

/-- `class Unlimited(Limiter)`: dummy limiter that imposes no limit. -/
structure Unlimited where

namespace Unlimited

/-- `Unlimited.reset`: `pass`. -/
def reset (u : Unlimited) (_now : ℚ) : Unlimited := u

/-- `Unlimited.wait_time`: `return None`. -/
def wait_time (_u : Unlimited) (_now : ℚ) : Option ℚ := none

/-- `Unlimited.use`: `pass`. -/
def use (u : Unlimited) (_now : ℚ) : Unlimited := u

end Unlimited

/-- State of `class ConstantRate(Limiter)`: fields `_delay` and `_last_t`
(`_timer` is modelled by the explicit `now` arguments). -/
structure ConstantRate where
  delay : ℚ
  last_t : ℚ
  deriving DecidableEq, Repr

namespace ConstantRate

/-- `ConstantRate.reset`: `self._last_t = self._timer() - self._delay`. -/
def reset (c : ConstantRate) (now : ℚ) : ConstantRate :=
  { c with last_t := now - c.delay }

/-- `ConstantRate.__init__`: `self._delay = (1.0 + margin) / rate`, then
`self.reset()` at construction time `now`. -/
def init (rate margin now : ℚ) : ConstantRate :=
  reset { delay := (1 + margin) / rate, last_t := 0 } now

/-- `ConstantRate.wait_time`:
`wait = self._last_t + self._delay - now; return wait if wait > 0 else None`. -/
def wait_time (c : ConstantRate) (now : ℚ) : Option ℚ :=
  let wait := c.last_t + c.delay - now
  if 0 < wait then some wait else none

/-- `ConstantRate.use`: `self._last_t = self._timer()`. -/
def use (c : ConstantRate) (now : ℚ) : ConstantRate :=
  { c with last_t := now }

/-- A history of `use()` calls, applied in order (each list element is the
timer value at that call). -/
def run (c : ConstantRate) (us : List ℚ) : ConstantRate :=
  us.foldl use c

end ConstantRate

/-- State of `class LeakyBucket(Limiter)`: fields `_rate`, `_burst`
(the margin-scaled values stored by `__init__`), `_last_v`, `_last_t`. -/
structure LeakyBucket where
  rate : ℚ
  burst : ℚ
  last_v : ℚ
  last_t : ℚ
  deriving DecidableEq, Repr

namespace LeakyBucket

/-- `LeakyBucket.reset`: `self._last_v = 0.0; self._last_t = self._timer()`. -/
def reset (b : LeakyBucket) (now : ℚ) : LeakyBucket :=
  { b with last_v := 0, last_t := now }

/-- `LeakyBucket.__init__`: `self._rate = rate * (1.0 - margin)`,
`self._burst = burst * (1.0 - margin)`, then `self.reset()` at time `now`. -/
def init (rate burst margin now : ℚ) : LeakyBucket :=
  reset { rate := rate * (1 - margin), burst := burst * (1 - margin),
          last_v := 0, last_t := 0 } now

/-- `LeakyBucket._current`:
`return max(0, self._last_v - self._rate * (now - self._last_t))`. -/
def current (b : LeakyBucket) (now : ℚ) : ℚ :=
  max 0 (b.last_v - b.rate * (now - b.last_t))

/-- `LeakyBucket.wait_time`:
`over = self._current(now) + 1 - self._burst;`
`if over >= 0: return over / self._rate; return None`. -/
def wait_time (b : LeakyBucket) (now : ℚ) : Option ℚ :=
  let over := b.current now + 1 - b.burst
  if 0 ≤ over then some (over / b.rate) else none

/-- `LeakyBucket.use`: `self._last_v = min(self._current(now) + 1, self._burst);`
`self._last_t = now`. -/
def use (b : LeakyBucket) (now : ℚ) : LeakyBucket :=
  { b with last_v := min (b.current now + 1) b.burst, last_t := now }

/-- A history of `use()` calls, applied in order. -/
def run (b : LeakyBucket) (us : List ℚ) : LeakyBucket :=
  us.foldl use b

end LeakyBucket

/-- State of `class Windowed(Limiter)`: fields `_max`, `_window`
(the margin-scaled value stored by `__init__`), `_window_end`,
`_window_count`. -/
structure Windowed where
  max : ℕ
  window : ℚ
  window_end : ℚ
  window_count : ℕ
  deriving DecidableEq, Repr

namespace Windowed

/-- `Windowed.reset`: `self._window_end = self._timer(); self._window_count = 0`. -/
def reset (w : Windowed) (now : ℚ) : Windowed :=
  { w with window_end := now, window_count := 0 }

/-- `Windowed.__init__`: `self._max = max`, `self._window = window * (1 + margin)`,
then `self.reset()` at time `now`. -/
def init (max : ℕ) (window margin now : ℚ) : Windowed :=
  reset { max := max, window := window * (1 + margin), window_end := 0,
          window_count := 0 } now

/-- `Windowed.wait_time`: `wait = self._window_end - now;`
`if wait > 0 and self._window_count >= self._max: return wait; return None`. -/
def wait_time (w : Windowed) (now : ℚ) : Option ℚ :=
  let wait := w.window_end - now
  if 0 < wait ∧ w.max ≤ w.window_count then some wait else none

/-- `Windowed.use`: `if now >= self._window_end:`
`self._window_end = now + self._window; self._window_count = 1`
`else: self._window_count += 1`. -/
def use (w : Windowed) (now : ℚ) : Windowed :=
  if w.window_end ≤ now then
    { w with window_end := now + w.window, window_count := 1 }
  else
    { w with window_count := w.window_count + 1 }

end Windowed

/-- The effective wait in seconds of a `wait_time` result, treating `None`
(immediate) as a zero wait. -/
def effWait (o : Option ℚ) : ℚ := o.getD 0

/-- C1: For `ConstantRate(rate=2, margin=0)` (so `delay = (1+0)/2 = 0.5`),
after `use()` at `t=0`, `wait_time` at `t=0.4 = 2/5` is `0.1 = 1/10`, and
`wait_time` at any `t ≥ 0.5` is `None`; in general `wait_time` equals
`last_t + delay - now` clamped to `None` when `≤ 0`, `use()` sets
`last_t = now` (keeping `delay`), and `reset()` sets `last_t = now - delay`. -/
theorem C1_constant_rate_spacing (t0 : ℚ) :
    (((ConstantRate.init 2 0 t0).use 0).wait_time (2/5) = some (1/10))
    ∧ (∀ t : ℚ, 1/2 ≤ t → ((ConstantRate.init 2 0 t0).use 0).wait_time t = none)
    ∧ (∀ (c : ConstantRate) (now : ℚ),
        c.wait_time now =
          if 0 < c.last_t + c.delay - now then some (c.last_t + c.delay - now)
          else none)
    ∧ (∀ (c : ConstantRate) (now : ℚ),
        c.use now = { delay := c.delay, last_t := now })
    ∧ (∀ (c : ConstantRate) (now : ℚ),
        c.reset now = { delay := c.delay, last_t := now - c.delay }) := by
  refine ⟨?_, ?_, ?_, ?_, ?_⟩
  · simp [ConstantRate.init, ConstantRate.use, ConstantRate.reset,
      ConstantRate.wait_time]
    norm_num
  · intro t ht
    simp only [ConstantRate.init, ConstantRate.use, ConstantRate.reset,
      ConstantRate.wait_time]
    rw [if_neg]
    norm_num
    linarith
  · intro c now
    rfl
  · intro c now
    rfl
  · intro c now
    rfl

/-- C1 witness: instantiation of `C1_constant_rate_spacing` at `t0 = 0`,
with the `1/2 ≤ t` hypothesis discharged at `t = 1/2`. -/
theorem C1_constant_rate_spacing_witness :
    ((ConstantRate.init 2 0 0).use 0).wait_time (2/5) = some (1/10)
    ∧ ((ConstantRate.init 2 0 0).use 0).wait_time (1/2) = none :=
  ⟨(C1_constant_rate_spacing 0).1,
   (C1_constant_rate_spacing 0).2.1 (1/2) (by norm_num)⟩

/-- C2 counterexample: for `LeakyBucket(rate=1, burst=3, margin=0)` with three
`use()` calls at `t=0`, the claim says `wait_time` at `t = 1/rate = 1` is
`None`; the code computes `over = current(1) + 1 - burst = 2 + 1 - 3 = 0` and
the branch `over >= 0` returns `0.0`, not `None`. -/
theorem C2_leaky_bucket_boundary_counterexample :
    ((((LeakyBucket.init 1 3 0 0).use 0).use 0).use 0).wait_time 1 = some 0
    ∧ ¬ ((((LeakyBucket.init 1 3 0 0).use 0).use 0).use 0).wait_time 1 = none := by
  have hb : (((LeakyBucket.init 1 3 0 0).use 0).use 0).use 0
      = { rate := 1, burst := 3, last_v := 3, last_t := 0 } := by
    norm_num [LeakyBucket.init, LeakyBucket.reset, LeakyBucket.use,
      LeakyBucket.current]
  rw [hb]
  refine ⟨?_, ?_⟩
  · norm_num [LeakyBucket.wait_time, LeakyBucket.current]
  · norm_num [LeakyBucket.wait_time, LeakyBucket.current]
    exact fun h => Option.noConfusion h

/-- C2 (amended): for `LeakyBucket(rate=1, burst=3, margin=0)`, three `use()`
calls at `t=0` raise the level to exactly 3; still at `t=0`, `wait_time` is
strictly positive; at exactly `t = 1/rate = 1`, `wait_time` is `some 0`
(zero wait, not `None`); and for every `t > 1`, `wait_time` is `None`. -/
theorem C2_leaky_bucket_capacity_amended :
    ((((LeakyBucket.init 1 3 0 0).use 0).use 0).use 0).last_v = 3
    ∧ (∃ q : ℚ,
        ((((LeakyBucket.init 1 3 0 0).use 0).use 0).use 0).wait_time 0 = some q
        ∧ 0 < q)
    ∧ ((((LeakyBucket.init 1 3 0 0).use 0).use 0).use 0).wait_time 1 = some 0
    ∧ (∀ t : ℚ, 1 < t →
        ((((LeakyBucket.init 1 3 0 0).use 0).use 0).use 0).wait_time t = none) := by
  have hb : (((LeakyBucket.init 1 3 0 0).use 0).use 0).use 0
      = { rate := 1, burst := 3, last_v := 3, last_t := 0 } := by
    norm_num [LeakyBucket.init, LeakyBucket.reset, LeakyBucket.use,
      LeakyBucket.current]
  rw [hb]
  refine ⟨rfl, ⟨1, ?_, by norm_num⟩, ?_, ?_⟩
  · norm_num [LeakyBucket.wait_time, LeakyBucket.current]
  · norm_num [LeakyBucket.wait_time, LeakyBucket.current]
  · intro t ht
    simp only [LeakyBucket.wait_time, LeakyBucket.current]
    rw [if_neg]
    rcases le_or_lt (3 - 1 * (t - 0)) 0 with h | h
    · rw [max_eq_left h]
      norm_num
    · rw [max_eq_right h.le]
      intro hc
      linarith

/-- C2 witness: instantiation of `C2_leaky_bucket_capacity_amended`, with the
`1 < t` hypothesis discharged at `t = 2`. -/
theorem C2_leaky_bucket_capacity_amended_witness :
    ((((LeakyBucket.init 1 3 0 0).use 0).use 0).use 0).last_v = 3
    ∧ ((((LeakyBucket.init 1 3 0 0).use 0).use 0).use 0).wait_time 2 = none :=
  ⟨C2_leaky_bucket_capacity_amended.1,
   C2_leaky_bucket_capacity_amended.2.2.2 2 (by norm_num)⟩

/-- C3: for every `Windowed` state, `wait_time` returns `window_end - now`
exactly when `now < window_end` and `window_count ≥ max` (else `None`);
`use()` at `now ≥ window_end` (including exactly at `window_end`) opens a
fresh window with `window_end = now + window` and `window_count = 1`, while
`use()` at `now < window_end` only increments `window_count`; `reset()` sets
`window_end = now` and `window_count = 0`. -/
theorem C3_windowed_characterization (w : Windowed) (now : ℚ) :
    (w.wait_time now =
      if now < w.window_end ∧ w.max ≤ w.window_count
      then some (w.window_end - now) else none)
    ∧ (w.window_end ≤ now →
        w.use now = { max := w.max, window := w.window,
                      window_end := now + w.window, window_count := 1 })
    ∧ (now < w.window_end →
        w.use now = { max := w.max, window := w.window,
                      window_end := w.window_end,
                      window_count := w.window_count + 1 })
    ∧ w.reset now = { max := w.max, window := w.window,
                      window_end := now, window_count := 0 } := by
  refine ⟨?_, ?_, ?_, rfl⟩
  · simp only [Windowed.wait_time, sub_pos]
  · intro h
    simp [Windowed.use, h]
  · intro h
    simp [Windowed.use, not_le.mpr h]

/-- C3 witness: instantiation of `C3_windowed_characterization`: a `use()`
exactly at `window_end` opens a fresh window with count 1, and a `use()`
strictly inside the window increments the count. -/
theorem C3_windowed_characterization_witness :
    Windowed.use { max := 2, window := 10, window_end := 0, window_count := 0 } 0
      = { max := 2, window := 10, window_end := 0 + 10, window_count := 1 }
    ∧ Windowed.use { max := 2, window := 10, window_end := 10, window_count := 1 } 5
      = { max := 2, window := 10, window_end := 10, window_count := 1 + 1 } :=
  ⟨(C3_windowed_characterization
      { max := 2, window := 10, window_end := 0, window_count := 0 } 0).2.1
      (by norm_num),
   (C3_windowed_characterization
      { max := 2, window := 10, window_end := 10, window_count := 1 } 5).2.2.1
      (by norm_num)⟩

/-- C7 counterexample: `LeakyBucket(rate=1, burst=1, margin=1/2)` has valid
construction parameters (`rate`, `burst` positive, `margin ∈ [0,1]`), yet
immediately after `reset()` the effective burst is `1·(1-1/2) = 1/2 < 1`, so
`over = 0 + 1 - 1/2 ≥ 0` and `wait_time` is `some 1`, not `None`. -/
theorem C7_reset_fresh_counterexample :
    ((LeakyBucket.init 1 1 (1/2) 0).reset 0).wait_time 0 = some 1
    ∧ ¬ ((LeakyBucket.init 1 1 (1/2) 0).reset 0).wait_time 0 = none := by
  refine ⟨?_, ?_⟩
  · norm_num [LeakyBucket.init, LeakyBucket.reset, LeakyBucket.wait_time,
      LeakyBucket.current]
  · norm_num [LeakyBucket.init, LeakyBucket.reset, LeakyBucket.wait_time,
      LeakyBucket.current]
    exact fun h => Option.noConfusion h

/-- C7 (amended): for every primitive limiter, calling `reset()` and then
immediately (at the same time) querying `wait_time` yields `None` — for
`Unlimited`, `ConstantRate` and `Windowed` unconditionally, and for
`LeakyBucket` provided its stored effective burst `burst·(1-margin)`
exceeds 1 (otherwise even an empty bucket has no room for one request). -/
theorem C7_reset_then_immediate_none (u : Unlimited) (c : ConstantRate)
    (b : LeakyBucket) (w : Windowed) (now : ℚ) (hb : 1 < b.burst) :
    (u.reset now).wait_time now = none
    ∧ (c.reset now).wait_time now = none
    ∧ (b.reset now).wait_time now = none
    ∧ (w.reset now).wait_time now = none := by
  refine ⟨rfl, ?_, ?_, ?_⟩
  · simp only [ConstantRate.reset, ConstantRate.wait_time]
    rw [if_neg]
    intro h
    linarith
  · simp only [LeakyBucket.reset, LeakyBucket.wait_time, LeakyBucket.current]
    rw [if_neg]
    intro h
    simp only [sub_self, mul_zero, sub_zero, max_self] at h
    linarith
  · simp only [Windowed.reset, Windowed.wait_time]
    rw [if_neg]
    intro h
    have := h.1
    linarith

/-- C7 witness: instantiation of `C7_reset_then_immediate_none` at concrete
limiter states, with the burst hypothesis discharged for effective burst 2. -/
theorem C7_reset_then_immediate_none_witness :
    (1 : ℚ) < ({ rate := 1, burst := 2, last_v := 5, last_t := 3 } :
        LeakyBucket).burst
    ∧ (({ rate := 1, burst := 2, last_v := 5, last_t := 3 } :
        LeakyBucket).reset 0).wait_time 0 = none
    ∧ (({ delay := 1/2, last_t := 7 } : ConstantRate).reset 0).wait_time 0 = none
    ∧ (({ max := 1, window := 10, window_end := 4, window_count := 1 } :
        Windowed).reset 0).wait_time 0 = none :=
  ⟨by norm_num,
   (C7_reset_then_immediate_none ⟨⟩ { delay := 1/2, last_t := 7 }
      { rate := 1, burst := 2, last_v := 5, last_t := 3 }
      { max := 1, window := 10, window_end := 4, window_count := 1 } 0
      (by norm_num)).2.2.1,
   (C7_reset_then_immediate_none ⟨⟩ { delay := 1/2, last_t := 7 }
      { rate := 1, burst := 2, last_v := 5, last_t := 3 }
      { max := 1, window := 10, window_end := 4, window_count := 1 } 0
      (by norm_num)).2.1,
   (C7_reset_then_immediate_none ⟨⟩ { delay := 1/2, last_t := 7 }
      { rate := 1, burst := 2, last_v := 5, last_t := 3 }
      { max := 1, window := 10, window_end := 4, window_count := 1 } 0
      (by norm_num)).2.2.2⟩

/-- `Windowed` states reachable by any sequence of `reset()` and *obedient*
`use()` calls (a `use()` made only when `wait_time` is `None`, as the
blocking `limit()` helper produces after sleeping); `wait_time` itself
never changes the state, so it needs no constructor. -/
inductive ObedientReach : Windowed → Prop where
  | fresh (m : ℕ) (win t : ℚ) :
      ObedientReach { max := m, window := win, window_end := t, window_count := 0 }
  | reset (w : Windowed) (t : ℚ) :
      ObedientReach w → ObedientReach (w.reset t)
  | use (w : Windowed) (t : ℚ) :
      ObedientReach w → w.wait_time t = none → ObedientReach (w.use t)

/-- C8 counterexample: with `max=1, window=10, margin=0`, the history
`reset` at 0, `use` at 0, `use` at 1 (times non-decreasing; the second
`use()` happens while `wait_time = some 9` is non-`None`, which the
contract permits) reaches `window_count = 2 > max = 1` while
`now = 2 < window_end = 10`, refuting the claimed invariant. -/
theorem C8_windowed_invariant_counterexample :
    ((Windowed.init 1 10 0 0).use 0).wait_time 1 = some 9
    ∧ (((Windowed.init 1 10 0 0).use 0).use 1).window_count = 2
    ∧ (((Windowed.init 1 10 0 0).use 0).use 1).max = 1
    ∧ (2 : ℚ) < (((Windowed.init 1 10 0 0).use 0).use 1).window_end
    ∧ ¬ ((((Windowed.init 1 10 0 0).use 0).use 1).window_count
          ≤ (((Windowed.init 1 10 0 0).use 0).use 1).max) := by
  have h1 : (Windowed.init 1 10 0 0).use 0
      = { max := 1, window := 10, window_end := 10, window_count := 1 } := by
    norm_num [Windowed.init, Windowed.reset, Windowed.use]
  have h2 : ((Windowed.init 1 10 0 0).use 0).use 1
      = { max := 1, window := 10, window_end := 10, window_count := 2 } := by
    rw [h1]
    norm_num [Windowed.use]
  rw [h2, h1]
  norm_num [Windowed.wait_time]

/-- C8 (amended): for a `Windowed` limiter with `max ≥ 1`, the invariant
`window_count ≤ max` (hence in particular while `now < window_end`) holds at
every state reachable by `reset()` calls, `wait_time` queries, and `use()`
calls made only when `wait_time` is `None`; the unrestricted-`use()` version
fails (`C8_windowed_invariant_counterexample`). -/
theorem C8_windowed_invariant_amended (w : Windowed) (hw : ObedientReach w)
    (hmax : 1 ≤ w.max) : w.window_count ≤ w.max := by
  revert hmax
  induction hw with
  | fresh m win t =>
    intro _
    exact Nat.zero_le _
  | reset w' t h ih =>
    intro _
    exact Nat.zero_le _
  | use w' t h hnone ih =>
    intro hm
    by_cases hc : w'.window_end ≤ t
    · simp only [Windowed.use, if_pos hc] at hm ⊢
      exact hm
    · have h2 : ¬ (0 < w'.window_end - t ∧ w'.max ≤ w'.window_count) := by
        intro hcond
        simp only [Windowed.wait_time, if_pos hcond] at hnone
        exact Option.noConfusion hnone
      have h3 : w'.window_count < w'.max := by
        rcases not_and_or.mp h2 with hx | hx
        · exact absurd (sub_pos.mpr (not_le.mp hc)) hx
        · exact not_le.mp hx
      simp only [Windowed.use, if_neg hc] at hm ⊢
      omega

/-- C8 witness: the state after an obedient `use()` at `t = 0` on a fresh
`Windowed(max=1, window=10)` satisfies the invariant. -/
theorem C8_windowed_invariant_amended_witness :
    (Windowed.use { max := 1, window := 10, window_end := 0, window_count := 0 }
      0).window_count
    ≤ (Windowed.use { max := 1, window := 10, window_end := 0, window_count := 0 }
      0).max :=
  C8_windowed_invariant_amended _
    (ObedientReach.use _ 0 (ObedientReach.fresh 1 10 0)
      (by norm_num [Windowed.wait_time]))
    (by norm_num [Windowed.use])

/-- C6 counterexample: for `Windowed(max=1, window=10)`, margins `0 ≤ 1/10`,
the identical `use()` history at times `0, 21/2` gives wait `99/10` under
margin `0` but only `2/5` under margin `1/10` when queried at `53/5`: the
larger margin lengthens the window, so the second `use()` lands inside the
old window instead of opening a fresh one, and the wait *decreases*. -/
theorem C6_margin_monotonicity_counterexample :
    effWait ((((Windowed.init 1 10 (1/10) 0).use 0).use (21/2)).wait_time (53/5))
      < effWait ((((Windowed.init 1 10 0 0).use 0).use (21/2)).wait_time (53/5)) := by
  have h1 : ((Windowed.init 1 10 0 0).use 0).use (21/2)
      = { max := 1, window := 10, window_end := 41/2, window_count := 1 } := by
    norm_num [Windowed.init, Windowed.reset, Windowed.use]
  have h2 : ((Windowed.init 1 10 (1/10) 0).use 0).use (21/2)
      = { max := 1, window := 11, window_end := 11, window_count := 2 } := by
    norm_num [Windowed.init, Windowed.reset, Windowed.use]
  rw [h1, h2]
  norm_num [Windowed.wait_time, effWait]

/-- `min` distributes over multiplication by a nonnegative factor. -/
theorem min_mul_nonneg_right (a b c : ℚ) (hc : 0 ≤ c) :
    min a b * c = min (a * c) (b * c) := by
  rcases le_total a b with h | h
  · rw [min_eq_left h, min_eq_left (mul_le_mul_of_nonneg_right h hc)]
  · rw [min_eq_right h, min_eq_right (mul_le_mul_of_nonneg_right h hc)]

/-- Clamping at 0 preserves a cross-multiplied inequality. -/
theorem max_zero_mul_le {x y r1 r2 : ℚ} (h : x * r2 ≤ y * r1)
    (h2 : 0 < r2) (h1 : 0 < r1) : max 0 x * r2 ≤ max 0 y * r1 := by
  rcases le_or_lt x 0 with hx | hx
  · rw [max_eq_left hx, zero_mul]
    exact mul_nonneg (le_max_left 0 y) h1.le
  · rw [max_eq_right hx.le]
    calc x * r2 ≤ y * r1 := h
      _ ≤ max 0 y * r1 := mul_le_mul_of_nonneg_right (le_max_right 0 y) h1.le

/-- Simulation relation between two `LeakyBucket` states built with the same
`rate`/`burst` but margins `m1 ≤ m2 < 1` (`b1` the smaller margin): same last
update time, positive ordered rates, equal drain horizon `burst/rate`, and the
level-in-seconds of `b2` dominates that of `b1`. -/
def LBrel (b1 b2 : LeakyBucket) : Prop :=
  b1.last_t = b2.last_t ∧ 0 < b2.rate ∧ b2.rate ≤ b1.rate
    ∧ b1.burst * b2.rate = b2.burst * b1.rate
    ∧ b1.last_v * b2.rate ≤ b2.last_v * b1.rate

theorem LBrel_current {b1 b2 : LeakyBucket} (h : LBrel b1 b2) (now : ℚ) :
    b1.current now * b2.rate ≤ b2.current now * b1.rate := by
  obtain ⟨ht, hr2, hr12, _hb, hv⟩ := h
  have hr1 : 0 < b1.rate := lt_of_lt_of_le hr2 hr12
  apply max_zero_mul_le _ hr2 hr1
  rw [ht]
  have e1 : (b1.last_v - b1.rate * (now - b2.last_t)) * b2.rate
      = b1.last_v * b2.rate - b1.rate * b2.rate * (now - b2.last_t) := by ring
  have e2 : (b2.last_v - b2.rate * (now - b2.last_t)) * b1.rate
      = b2.last_v * b1.rate - b1.rate * b2.rate * (now - b2.last_t) := by ring
  rw [e1, e2]
  linarith

theorem LBrel_use {b1 b2 : LeakyBucket} (h : LBrel b1 b2) (u : ℚ) :
    LBrel (b1.use u) (b2.use u) := by
  have hcur := LBrel_current h u
  obtain ⟨ht, hr2, hr12, hb, hv⟩ := h
  have hr1 : 0 < b1.rate := lt_of_lt_of_le hr2 hr12
  refine ⟨rfl, hr2, hr12, hb, ?_⟩
  show min (b1.current u + 1) b1.burst * b2.rate
      ≤ min (b2.current u + 1) b2.burst * b1.rate
  rw [min_mul_nonneg_right _ _ _ hr2.le, min_mul_nonneg_right _ _ _ hr1.le]
  apply min_le_min _ (le_of_eq hb)
  have e1 : (b1.current u + 1) * b2.rate = b1.current u * b2.rate + b2.rate := by
    ring
  have e2 : (b2.current u + 1) * b1.rate = b2.current u * b1.rate + b1.rate := by
    ring
  rw [e1, e2]
  linarith

theorem LBrel_run {b1 b2 : LeakyBucket} (h : LBrel b1 b2) (us : List ℚ) :
    LBrel (b1.run us) (b2.run us) := by
  induction us generalizing b1 b2 with
  | nil => exact h
  | cons u us ih => exact ih (LBrel_use h u)

theorem LBrel_effWait {b1 b2 : LeakyBucket} (h : LBrel b1 b2) (now : ℚ) :
    effWait (b1.wait_time now) ≤ effWait (b2.wait_time now) := by
  have hcur := LBrel_current h now
  obtain ⟨ht, hr2, hr12, hb, hv⟩ := h
  have hr1 : 0 < b1.rate := lt_of_lt_of_le hr2 hr12
  have hover : (b1.current now + 1 - b1.burst) * b2.rate
      ≤ (b2.current now + 1 - b2.burst) * b1.rate := by
    have e1 : (b1.current now + 1 - b1.burst) * b2.rate
        = b1.current now * b2.rate + b2.rate - b1.burst * b2.rate := by ring
    have e2 : (b2.current now + 1 - b2.burst) * b1.rate
        = b2.current now * b1.rate + b1.rate - b2.burst * b1.rate := by ring
    rw [e1, e2]
    linarith
  have e : ∀ b : LeakyBucket, 0 < b.rate →
      effWait (b.wait_time now) = max 0 ((b.current now + 1 - b.burst) / b.rate) := by
    intro b hr
    by_cases hc : 0 ≤ b.current now + 1 - b.burst
    · simp only [LeakyBucket.wait_time, if_pos hc, effWait, Option.getD_some]
      rw [max_eq_right (div_nonneg hc hr.le)]
    · simp only [LeakyBucket.wait_time, if_neg hc, effWait, Option.getD_none]
      rw [max_eq_left
        (le_of_lt (div_neg_of_neg_of_pos (lt_of_not_le hc) hr))]
  rw [e b1 hr1, e b2 hr2]
  apply max_le_max le_rfl
  rw [div_le_div_iff hr1 hr2]
  exact hover

theorem LBrel_init (rate burst m1 m2 t0 : ℚ) (hr : 0 < rate) (h12 : m1 ≤ m2)
    (h2 : m2 < 1) :
    LBrel (LeakyBucket.init rate burst m1 t0) (LeakyBucket.init rate burst m2 t0) := by
  refine ⟨rfl, ?_, ?_, ?_, ?_⟩
  · show 0 < rate * (1 - m2)
    exact mul_pos hr (by linarith)
  · show rate * (1 - m2) ≤ rate * (1 - m1)
    exact mul_le_mul_of_nonneg_left (by linarith) hr.le
  · show burst * (1 - m1) * (rate * (1 - m2)) = burst * (1 - m2) * (rate * (1 - m1))
    ring
  · show (0 : ℚ) * (rate * (1 - m2)) ≤ 0 * (rate * (1 - m1))
    simp

theorem constantRate_run_rel (c1 c2 : ConstantRate) (us : List ℚ)
    (hd : c1.delay ≤ c2.delay)
    (hl : c1.last_t + c1.delay ≤ c2.last_t + c2.delay) :
    (c1.run us).last_t + (c1.run us).delay
      ≤ (c2.run us).last_t + (c2.run us).delay := by
  induction us generalizing c1 c2 with
  | nil => exact hl
  | cons u us ih =>
    exact ih (c1.use u) (c2.use u) hd (by simp only [ConstantRate.use]; linarith)

theorem constantRate_effWait_mono (c1 c2 : ConstantRate)
    (hl : c1.last_t + c1.delay ≤ c2.last_t + c2.delay) (now : ℚ) :
    effWait (c1.wait_time now) ≤ effWait (c2.wait_time now) := by
  have e : ∀ c : ConstantRate,
      effWait (c.wait_time now) = max 0 (c.last_t + c.delay - now) := by
    intro c
    by_cases h : 0 < c.last_t + c.delay - now
    · simp only [ConstantRate.wait_time, if_pos h, effWait, Option.getD_some]
      rw [max_eq_right h.le]
    · simp only [ConstantRate.wait_time, if_neg h, effWait, Option.getD_none]
      rw [max_eq_left (not_lt.mp h)]
  rw [e c1, e c2]
  exact max_le_max le_rfl (by linarith)

/-- C6 (amended): for `ConstantRate` and `LeakyBucket` with fixed `rate` and
`burst`, margins `0 ≤ m1 ≤ m2 ≤ 1` and any identical history of `use()` calls,
the `wait_time` at any query time under margin `m2` is never smaller than
under `m1` (treating `None` as zero wait); for `LeakyBucket` the larger margin
must additionally satisfy `m2 < 1` (at `m2 = 1` the effective rate is 0 and
`wait_time` divides by zero).  For `Windowed` the claim is false
(`C6_margin_monotonicity_counterexample`). -/
theorem C6_margin_monotonicity_amended (rate burst t0 now m1 m2 : ℚ)
    (us : List ℚ) (hr : 0 < rate) (h0 : 0 ≤ m1) (h12 : m1 ≤ m2) (h2 : m2 ≤ 1) :
    effWait (((ConstantRate.init rate m1 t0).run us).wait_time now)
      ≤ effWait (((ConstantRate.init rate m2 t0).run us).wait_time now)
    ∧ (m2 < 1 →
        effWait (((LeakyBucket.init rate burst m1 t0).run us).wait_time now)
          ≤ effWait (((LeakyBucket.init rate burst m2 t0).run us).wait_time now)) := by
  constructor
  · apply constantRate_effWait_mono
    apply constantRate_run_rel
    · show (1 + m1) / rate ≤ (1 + m2) / rate
      rw [div_le_div_iff hr hr]
      nlinarith
    · show t0 - (1 + m1) / rate + (1 + m1) / rate
        ≤ t0 - (1 + m2) / rate + (1 + m2) / rate
      ring_nf
      exact le_refl _
  · intro hm2
    exact LBrel_effWait (LBrel_run (LBrel_init rate burst m1 m2 t0 hr h12 hm2) us) now

/-- C6 witness: instantiation of `C6_margin_monotonicity_amended` at
`rate=1, burst=3, t0=0, now=0, m1=0, m2=1/2`, history `[0]`. -/
theorem C6_margin_monotonicity_amended_witness :
    effWait (((ConstantRate.init 1 0 0).run [0]).wait_time 0)
      ≤ effWait (((ConstantRate.init 1 (1/2) 0).run [0]).wait_time 0)
    ∧ effWait (((LeakyBucket.init 1 3 0 0).run [0]).wait_time 0)
      ≤ effWait (((LeakyBucket.init 1 3 (1/2) 0).run [0]).wait_time 0) :=
  ⟨(C6_margin_monotonicity_amended 1 3 0 0 0 (1/2) [0] (by norm_num)
      (by norm_num) (by norm_num) (by norm_num)).1,
   (C6_margin_monotonicity_amended 1 3 0 0 0 (1/2) [0] (by norm_num)
      (by norm_num) (by norm_num) (by norm_num)).2 (by norm_num)⟩

/-- Deep embedding of the `Limiter` class hierarchy, needed because the
combinators `Any` (field `_children`) and `Synced` (field `_inner`) hold
arbitrary child limiters. -/
inductive Ltr where
  | unlimited : Ltr
  | constantRate (c : ConstantRate) : Ltr
  | leakyBucket (b : LeakyBucket) : Ltr
  | windowed (w : Windowed) : Ltr
  | anyOf (children : List Ltr) : Ltr
  | synced (inner : Ltr) : Ltr

mutual

/-- Reading the `wait_time` property, as a state transformer: the Python
bodies perform no assignment, but reading a child's `wait_time` in
`Any.wait_time`/`Synced.wait_time` could in principle mutate it, so the
(possibly updated) children are threaded through explicitly.  The wait value
lives in `WithTop ℚ` because `Any.wait_time` starts its fold from
`float('inf')` and can return it. -/
def Ltr.stepWait : Ltr → ℚ → Ltr × Option (WithTop ℚ)
  | .unlimited, _ => (.unlimited, none)
  | .constantRate c, now =>
      (.constantRate c, (c.wait_time now).map (fun q => (q : WithTop ℚ)))
  | .leakyBucket b, now =>
      (.leakyBucket b, (b.wait_time now).map (fun q => (q : WithTop ℚ)))
  | .windowed w, now =>
      (.windowed w, (w.wait_time now).map (fun q => (q : WithTop ℚ)))
  | .anyOf cs, now =>
      let r := Ltr.stepWaitChildren cs now ⊤
      (.anyOf r.1, r.2)
  | .synced i, now =>
      let r := Ltr.stepWait i now
      (.synced r.1, r.2)

/-- The loop of `Any.wait_time`: `wait = float('inf')`; for each child,
`cwait = child.wait_time`; `if cwait is None: return None`;
`elif cwait < wait: wait = cwait`; finally `return wait`.  The early
`return None` leaves the remaining children unread. -/
def Ltr.stepWaitChildren : List Ltr → ℚ → WithTop ℚ → List Ltr × Option (WithTop ℚ)
  | [], _, wait => ([], some wait)
  | c :: rest, now, wait =>
      let rc := Ltr.stepWait c now
      match rc.2 with
      | none => (rc.1 :: rest, none)
      | some cwait =>
          let rr := Ltr.stepWaitChildren rest now (if cwait < wait then cwait else wait)
          (rc.1 :: rr.1, rr.2)

end

/-- The value of the `wait_time` property. -/
def Ltr.wait_time (l : Ltr) (now : ℚ) : Option (WithTop ℚ) :=
  (l.stepWait now).2

mutual

/-- `use()`: `Any.use` calls every child's `use()`; `Synced.use` delegates
to the inner limiter (under the lock, irrelevant single-threaded). -/
def Ltr.use : Ltr → ℚ → Ltr
  | .unlimited, _ => .unlimited
  | .constantRate c, now => .constantRate (c.use now)
  | .leakyBucket b, now => .leakyBucket (b.use now)
  | .windowed w, now => .windowed (w.use now)
  | .anyOf cs, now => .anyOf (Ltr.useChildren cs now)
  | .synced i, now => .synced (Ltr.use i now)

def Ltr.useChildren : List Ltr → ℚ → List Ltr
  | [], _ => []
  | c :: rest, now => Ltr.use c now :: Ltr.useChildren rest now

end

/-- `Limiter.synced()`: `if isinstance(self, Synced): return self;`
`return Synced(self)`. -/
def Ltr.syncedComb : Ltr → Ltr
  | .synced i => .synced i
  | l => .synced l

mutual

theorem Ltr.stepWait_fst : ∀ (l : Ltr) (now : ℚ), (Ltr.stepWait l now).1 = l
  | .unlimited, now => by simp [Ltr.stepWait]
  | .constantRate c, now => by simp [Ltr.stepWait]
  | .leakyBucket b, now => by simp [Ltr.stepWait]
  | .windowed w, now => by simp [Ltr.stepWait]
  | .anyOf cs, now => by
      simp only [Ltr.stepWait]
      rw [Ltr.stepWaitChildren_fst cs now ⊤]
  | .synced i, now => by
      simp only [Ltr.stepWait]
      rw [Ltr.stepWait_fst i now]

theorem Ltr.stepWaitChildren_fst :
    ∀ (cs : List Ltr) (now : ℚ) (w : WithTop ℚ),
      (Ltr.stepWaitChildren cs now w).1 = cs
  | [], now, w => by simp [Ltr.stepWaitChildren]
  | c :: rest, now, w => by
      simp only [Ltr.stepWaitChildren]
      cases h : (Ltr.stepWait c now).2 with
      | none =>
          simp only [h]
          rw [Ltr.stepWait_fst c now]
      | some cwait =>
          simp only [h]
          rw [Ltr.stepWait_fst c now,
            Ltr.stepWaitChildren_fst rest now (if cwait < w then cwait else w)]

end

/-- C5: reading the `wait_time` property of any limiter (`Unlimited`,
`ConstantRate`, `LeakyBucket`, `Windowed`, `Any`, `Synced`) in any state
leaves every field of the limiter's state, including all child limiters'
states, unchanged: the state component of the read is the identity, and the
value is `Ltr.wait_time`. -/
theorem C5_wait_time_non_mutating (l : Ltr) (now : ℚ) :
    l.stepWait now = (l, l.wait_time now) :=
  Prod.ext (Ltr.stepWait_fst l now) rfl

/-- The running minimum computed by the `Any.wait_time` loop: starting
accumulator `w` (initially `float('inf')` = `⊤`), update
`wait = cwait if cwait < wait else wait`. -/
def minAux : List (WithTop ℚ) → WithTop ℚ → WithTop ℚ
  | [], w => w
  | q :: rest, w => minAux rest (if q < w then q else w)

theorem minAux_le_init : ∀ (vs : List (WithTop ℚ)) (w : WithTop ℚ),
    minAux vs w ≤ w
  | [], w => le_refl w
  | q :: rest, w => by
      simp only [minAux]
      refine le_trans (minAux_le_init rest _) ?_
      split
      · exact le_of_lt (by assumption)
      · exact le_refl w

theorem minAux_le_mem : ∀ (vs : List (WithTop ℚ)) (w v : WithTop ℚ),
    v ∈ vs → minAux vs w ≤ v
  | q :: rest, w, v, hv => by
      simp only [minAux]
      rcases List.mem_cons.mp hv with h | h
      · subst h
        refine le_trans (minAux_le_init rest _) ?_
        split
        · exact le_refl v
        · exact not_lt.mp (by assumption)
      · exact minAux_le_mem rest _ v h

theorem minAux_mem_or_init : ∀ (vs : List (WithTop ℚ)) (w : WithTop ℚ),
    minAux vs w = w ∨ minAux vs w ∈ vs
  | [], w => Or.inl rfl
  | q :: rest, w => by
      simp only [minAux]
      rcases minAux_mem_or_init rest (if q < w then q else w) with h | h
      · rw [h]
        split
        · exact Or.inr (List.mem_cons_self q rest)
        · exact Or.inl rfl
      · exact Or.inr (List.mem_cons_of_mem q h)

theorem stepWaitChildren_snd_none_iff :
    ∀ (cs : List Ltr) (now : ℚ) (w : WithTop ℚ),
      (Ltr.stepWaitChildren cs now w).2 = none
        ↔ ∃ c ∈ cs, Ltr.wait_time c now = none
  | [], now, w => by simp [Ltr.stepWaitChildren]
  | c :: rest, now, w => by
      simp only [Ltr.stepWaitChildren]
      cases h : (Ltr.stepWait c now).2 with
      | none =>
          simp only [h]
          constructor
          · intro _
            exact ⟨c, List.mem_cons_self c rest, h⟩
          · intro _
            trivial
      | some cwait =>
          simp only [h]
          rw [stepWaitChildren_snd_none_iff rest now
            (if cwait < w then cwait else w)]
          constructor
          · rintro ⟨c', hc', hn⟩
            exact ⟨c', List.mem_cons_of_mem c hc', hn⟩
          · rintro ⟨c', hc', hn⟩
            rcases List.mem_cons.mp hc' with he | hm
            · subst he
              rw [Ltr.wait_time, h] at hn
              exact absurd hn (by simp)
            · exact ⟨c', hm, hn⟩

theorem stepWaitChildren_snd_some :
    ∀ (cs : List Ltr) (now : ℚ) (w : WithTop ℚ),
      (∀ c ∈ cs, Ltr.wait_time c now ≠ none) →
      (Ltr.stepWaitChildren cs now w).2
        = some (minAux (cs.map fun c => (Ltr.wait_time c now).getD ⊤) w)
  | [], now, w, _ => by simp [Ltr.stepWaitChildren, minAux]
  | c :: rest, now, w, hall => by
      have hc := hall c (List.mem_cons_self c rest)
      cases h : Ltr.wait_time c now with
      | none => exact absurd h hc
      | some cwait =>
          have h' : (Ltr.stepWait c now).2 = some cwait := h
          simp only [Ltr.stepWaitChildren, h']
          rw [stepWaitChildren_snd_some rest now
            (if cwait < w then cwait else w)
            (fun c' hc' => hall c' (List.mem_cons_of_mem c hc'))]
          simp only [List.map_cons, minAux, h, Option.getD_some]

/-- C4: for every `Any` over a non-empty list of child limiters, `wait_time`
is `None` exactly when some child's `wait_time` is `None`, and otherwise it
is one of the children's wait times and a lower bound of all of them (their
minimum); in particular children with waits `5` and `None` combine to `None`,
and children with waits `3` and `7` combine to `3`. -/
theorem C4_any_wait_time_minimum (cs : List Ltr) (now : ℚ) (hne : cs ≠ []) :
    ((Ltr.wait_time (.anyOf cs) now = none) ↔ ∃ c ∈ cs, Ltr.wait_time c now = none)
    ∧ ((∀ c ∈ cs, Ltr.wait_time c now ≠ none) →
        ∃ m : WithTop ℚ,
          Ltr.wait_time (.anyOf cs) now = some m
          ∧ some m ∈ cs.map (fun c => Ltr.wait_time c now)
          ∧ (∀ c ∈ cs, ∀ q : WithTop ℚ, Ltr.wait_time c now = some q → m ≤ q))
    ∧ Ltr.wait_time (.anyOf [.constantRate ⟨5, 0⟩, .unlimited]) 0 = none
    ∧ Ltr.wait_time (.anyOf [.constantRate ⟨3, 0⟩, .constantRate ⟨7, 0⟩]) 0
        = some ((3 : ℚ) : WithTop ℚ) := by
  have hany : ∀ (cs' : List Ltr) (t : ℚ),
      Ltr.wait_time (.anyOf cs') t = (Ltr.stepWaitChildren cs' t ⊤).2 := by
    intro cs' t
    simp [Ltr.wait_time, Ltr.stepWait]
  refine ⟨?_, ?_, ?_, ?_⟩
  · rw [hany]
    exact stepWaitChildren_snd_none_iff cs now ⊤
  · intro hall
    rw [hany, stepWaitChildren_snd_some cs now ⊤ hall]
    refine ⟨minAux (cs.map fun c => (Ltr.wait_time c now).getD ⊤) ⊤, rfl, ?_, ?_⟩
    · have hm : minAux (cs.map fun c => (Ltr.wait_time c now).getD ⊤) ⊤
          ∈ cs.map fun c => (Ltr.wait_time c now).getD ⊤ := by
        rcases minAux_mem_or_init
            (cs.map fun c => (Ltr.wait_time c now).getD ⊤) ⊤ with h | h
        · cases cs with
          | nil => exact absurd rfl hne
          | cons c0 rest =>
              have hv0 : (Ltr.wait_time c0 now).getD ⊤
                  ∈ (c0 :: rest).map fun x => (Ltr.wait_time x now).getD ⊤ :=
                List.mem_map_of_mem _ (List.mem_cons_self c0 rest)
              have hle := minAux_le_mem
                ((c0 :: rest).map fun x => (Ltr.wait_time x now).getD ⊤) ⊤
                ((Ltr.wait_time c0 now).getD ⊤) hv0
              rw [h] at hle
              have he : (Ltr.wait_time c0 now).getD ⊤
                  = minAux ((c0 :: rest).map fun x => (Ltr.wait_time x now).getD ⊤)
                      ⊤ := by
                rw [h]
                exact top_le_iff.mp hle
              exact he ▸ hv0
        · exact h
      rcases List.mem_map.mp hm with ⟨c, hc, he⟩
      obtain ⟨q, hq⟩ := Option.ne_none_iff_exists'.mp (hall c hc)
      rw [hq, Option.getD_some] at he
      have hw : Ltr.wait_time c now
          = some (minAux (cs.map fun c => (Ltr.wait_time c now).getD ⊤) ⊤) := by
        rw [hq, he]
      rw [← hw]
      exact List.mem_map_of_mem _ hc
    · intro c hc q hq
      have hv : (Ltr.wait_time c now).getD ⊤
          ∈ cs.map fun c => (Ltr.wait_time c now).getD ⊤ :=
        List.mem_map_of_mem _ hc
      have hle := minAux_le_mem _ ⊤ _ hv
      rw [hq, Option.getD_some] at hle
      exact hle
  · norm_num [hany, Ltr.stepWaitChildren, Ltr.stepWait, ConstantRate.wait_time]
  · norm_num [hany, Ltr.stepWaitChildren, Ltr.stepWait, ConstantRate.wait_time]
    decide

/-- C4 witness: instantiation of `C4_any_wait_time_minimum` at the two-child
list whose waits are `5` and `None`. -/
theorem C4_any_wait_time_minimum_witness :
    Ltr.wait_time (.anyOf [.constantRate ⟨5, 0⟩, .unlimited]) 0 = none :=
  (C4_any_wait_time_minimum [.constantRate ⟨5, 0⟩, .unlimited] 0 (by simp)).2.2.1

/-- C9: an `Any` with an empty child list has `wait_time = float('inf')`
(`some ⊤`), never `None`, so `limit()` would pass an infinite duration to
`time.sleep`; and its `use()` iterates over no children, registering
nothing. The spec does not mention this zero-children case. -/
theorem C9_any_empty_infinite_wait (now : ℚ) :
    Ltr.wait_time (.anyOf []) now = some ⊤
    ∧ Ltr.wait_time (.anyOf []) now ≠ none
    ∧ Ltr.use (.anyOf []) now = .anyOf [] := by
  refine ⟨?_, ?_, ?_⟩
  · simp [Ltr.wait_time, Ltr.stepWait, Ltr.stepWaitChildren]
  · simp [Ltr.wait_time, Ltr.stepWait, Ltr.stepWaitChildren]
  · simp [Ltr.use, Ltr.useChildren]

/-- C10: `Limiter.synced()` is idempotent: applied to an already-`Synced`
limiter it returns that limiter unchanged, so `l.synced().synced()` equals
`l.synced()` with no nested wrapping. -/
theorem C10_synced_idempotent (l : Ltr) :
    (l.syncedComb).syncedComb = l.syncedComb := by
  cases l <;> rfl
